import Mathlib

/-!
Verification of the 2D heat-equation simulator
(`src/components/HeatEquation2D.tsx`).

The numerical core of the component is embedded shallowly:

* a temperature grid `u : number[][]` becomes `Grid := List (List ℝ)`,
  with `cell u i j` translating the JS read `u[i][j]`;
* `initializeGrid`, `applyBoundaryConditions`, `solveHeatEquation`,
  `temperatureToColor` and the `animate` state transition are translated
  function by function;
* JS numbers are modelled as real numbers.  The one place where IEEE
  special values are observable — `temperatureToColor` dividing by
  `maxTemp - minTemp` without a zero check — is modelled with `Option`,
  `none` standing for a NaN result.

All functions in the source are pure up to the in-place mutation of
freshly created arrays, so the embedding is purely functional; in
particular a solver step can never modify its input grid.
-/

/-- Parameter record of the component (source lines 9–21).  All numeric
fields are JS numbers, modelled as reals; `gridResolution` is declared in
the source but unused by the numerical core. -/
structure HeatEquationParams where
  Lx : ℝ
  Ly : ℝ
  fL : ℝ
  fR : ℝ
  fT : ℝ
  alpha : ℝ
  dt : ℝ
  dx : ℝ
  dy : ℝ
  totalTime : ℝ
  gridResolution : ℕ

/-- The temperature field `u : number[][]`, indexed `u[i][j]`. -/
abbrev Grid := List (List ℝ)

/-- The JS read `u[i][j]`.  Out-of-range reads return the junk value `0`
(JS would return `undefined`); every claim is stated within bounds, where
the two semantics agree. -/
def cell (u : Grid) (i j : ℕ) : ℝ := (u.getD i []).getD j 0

/-- The grid `u` is a rectangular `nx × ny` array. -/
def Rect (u : Grid) (nx ny : ℕ) : Prop :=
  u.length = nx ∧ ∀ r ∈ u, r.length = ny

/-- Translation of `initializeGrid` (source lines 58–73): an
`nx × ny` array with `nx = Math.floor(Lx/dx) + 1`,
`ny = Math.floor(Ly/dy) + 1`, filled with
`u[i][j] = Math.cos(Math.PI * y / (2 * Ly)) * Math.sin(Math.PI * x / Lx)`
where `x = i*dx`, `y = j*dy`. -/
noncomputable def initializeGrid (p : HeatEquationParams) : Grid :=
  let nx := (⌊p.Lx / p.dx⌋).toNat + 1
  let ny := (⌊p.Ly / p.dy⌋).toNat + 1
  (List.range nx).map fun (i : ℕ) =>
    (List.range ny).map fun (j : ℕ) =>
      Real.cos (Real.pi * ((j : ℝ) * p.dy) / (2 * p.Ly)) *
        Real.sin (Real.pi * ((i : ℝ) * p.dx) / p.Lx)

/-- First loop of `applyBoundaryConditions` (source lines 81–84):
`u[i][0] = Math.sin(Math.PI * x / Lx)` with `x = i*dx`, for every row
`i`. -/
noncomputable def bcBottom (p : HeatEquationParams) (u : Grid) : Grid :=
  u.mapIdx fun i row => row.set 0 (Real.sin (Real.pi * ((i : ℝ) * p.dx) / p.Lx))

/-- Second loop (source lines 87–89): `u[0][j] = u[1][j] - fL * dx` for
`j < ny`; the reads `u[1][j]` see the grid already patched by the bottom
loop. -/
noncomputable def bcLeft (p : HeatEquationParams) (ny : ℕ) (u : Grid) : Grid :=
  u.set 0 ((List.range ny).map fun j => cell u 1 j - p.fL * p.dx)

/-- Third loop (source lines 92–94): `u[nx-1][j] = u[nx-2][j] + fR * dx`,
reading the grid as left by the two previous loops. -/
noncomputable def bcRight (p : HeatEquationParams) (ny : ℕ) (u : Grid) : Grid :=
  u.set (u.length - 1)
    ((List.range ny).map fun j => cell u (u.length - 2) j + p.fR * p.dx)

/-- Fourth loop (source lines 97–99): `u[i][ny-1] = u[i][ny-2] + fT * dy`
for every row `i`; each write only involves the row itself. -/
noncomputable def bcTop (p : HeatEquationParams) (ny : ℕ) (u : Grid) : Grid :=
  u.map fun row => row.set (ny - 1) (row.getD (ny - 2) 0 + p.fT * p.dy)

/-- Translation of `applyBoundaryConditions` (source lines 76–100): the
four boundary loops run in order bottom, left, right, top, each reading
the grid as modified by the previous ones.  `ny` is read once, at entry,
from `u[0].length`. -/
noncomputable def applyBoundaryConditions (p : HeatEquationParams) (u : Grid) : Grid :=
  let ny := (u.getD 0 []).length
  bcTop p ny (bcRight p ny (bcLeft p ny (bcBottom p u)))

/-- The stability test of `solveHeatEquation` (source line 112): the
condition under which `console.warn` fires, with
`rx = alpha * dt / (dx * dx)` and `ry = alpha * dt / (dy * dy)`. -/
def stabilityViolated (p : HeatEquationParams) : Prop :=
  p.alpha * p.dt / (p.dx * p.dx) + p.alpha * p.dt / (p.dy * p.dy) > 0.5

/-- Translation of `solveHeatEquation` (source lines 103–126): a deep
copy of `u` whose interior cells (`1 ≤ i < nx-1`, `1 ≤ j < ny-1`) receive
the explicit 5-point stencil update, all stencil reads taken from the
input grid `u`.  The `console.warn` side channel is modelled separately
by `stabilityViolated` and has no effect on the returned field, exactly
as in the source. -/
noncomputable def solveHeatEquation (p : HeatEquationParams) (u : Grid) : Grid :=
  let nx := u.length
  let ny := (u.getD 0 []).length
  let rx := p.alpha * p.dt / (p.dx * p.dx)
  let ry := p.alpha * p.dt / (p.dy * p.dy)
  u.mapIdx fun i row => row.mapIdx fun j x =>
    if 1 ≤ i ∧ i < nx - 1 ∧ 1 ≤ j ∧ j < ny - 1 then
      x + rx * (cell u (i+1) j - 2 * x + cell u (i-1) j)
        + ry * (cell u i (j+1) - 2 * x + cell u i (j-1))
    else x

/-- The normalization step of `temperatureToColor` (source line 130):
`Math.max(0, Math.min(1, (temp - minTemp) / (maxTemp - minTemp)))`.
The source has no guard for `maxTemp = minTemp`; over IEEE doubles a zero
denominator produces `±Infinity` (which the clamp maps to `1` or `0`) or,
for `temp = minTemp`, `NaN`, which `Math.min`/`Math.max` propagate.
`none` models the NaN outcome. -/
noncomputable def normalizedValue (temp minTemp maxTemp : ℝ) : Option ℝ :=
  if maxTemp = minTemp then
    if minTemp < temp then some 1
    else if temp < minTemp then some 0
    else none
  else some (max 0 (min 1 ((temp - minTemp) / (maxTemp - minTemp))))

/-- Translation of `temperatureToColor` (source lines 129–161): the
4-segment piecewise-linear gradient, each channel truncated with
`Math.floor`.  A NaN normalized value (see `normalizedValue`) makes every
branch test false and floods the channels with NaN, modelled as `none`. -/
noncomputable def temperatureToColor (temp minTemp maxTemp : ℝ) : Option (ℤ × ℤ × ℤ) :=
  (normalizedValue temp minTemp maxTemp).map fun normalized =>
    if normalized < 0.25 then
      let t := normalized * 4
      (⌊(0 : ℝ) * (1 - t) + 0 * t⌋, ⌊(0 : ℝ) * (1 - t) + 255 * t⌋,
        ⌊(255 : ℝ) * (1 - t) + 255 * t⌋)
    else if normalized < 0.5 then
      let t := (normalized - 0.25) * 4
      (⌊(0 : ℝ) * (1 - t) + 0 * t⌋, ⌊(255 : ℝ) * (1 - t) + 255 * t⌋,
        ⌊(255 : ℝ) * (1 - t) + 0 * t⌋)
    else if normalized < 0.75 then
      let t := (normalized - 0.5) * 4
      (⌊(0 : ℝ) * (1 - t) + 255 * t⌋, ⌊(255 : ℝ) * (1 - t) + 255 * t⌋,
        ⌊(0 : ℝ) * (1 - t) + 0 * t⌋)
    else
      let t := (normalized - 0.75) * 4
      (⌊(255 : ℝ) * (1 - t) + 255 * t⌋, ⌊(255 : ℝ) * (1 - t) + 0 * t⌋,
        ⌊(0 : ℝ) * (1 - t) + 0 * t⌋)

/-- Simulation state (source lines 23–28). -/
structure SimulationState where
  u : Grid
  time : ℝ
  isRunning : Bool
  animationId : Option ℕ

/-- The initial parameter record (source lines 34–46). -/
noncomputable def initialParams : HeatEquationParams :=
  { Lx := 2.0, Ly := 1.5, fL := 0.0, fR := 0.0, fT := 0.0, alpha := 0.1,
    dt := 0.001, dx := 0.05, dy := 0.05, totalTime := 5.0, gridResolution := 50 }

/-- Translation of the state update performed by one call of `animate`
(source lines 223–249): if the simulation is not running the state is
returned unchanged; otherwise the field is stepped and boundary-patched,
time advances by `dt`, and if the new time reaches `totalTime` the state
is returned with `time = 0` and `isRunning = false`.  Rendering has no
effect on the state. -/
noncomputable def animate (p : HeatEquationParams) (s : SimulationState) : SimulationState :=
  if s.isRunning = false then s
  else
    let newU := applyBoundaryConditions p (solveHeatEquation p s.u)
    let newTime := s.time + p.dt
    if p.totalTime ≤ newTime then
      { s with u := newU, time := 0, isRunning := false }
    else
      { s with u := newU, time := newTime }

/-- Closed form of the value left at `(i, j)` of an `nx × ny` grid by
`applyBoundaryConditions`: `a` describes the grid after the bottom loop,
`b` after the left loop, `c` after the right loop, and the outer
conditional is the top loop.  Proof-layer abbreviation (derived below,
in `cell_applyBC`, from the translation of the four loops). -/
noncomputable def bcExpected (p : HeatEquationParams) (u : Grid)
    (nx ny i j : ℕ) : ℝ :=
  let a : ℕ → ℕ → ℝ := fun i j =>
    if j = 0 then Real.sin (Real.pi * ((i : ℝ) * p.dx) / p.Lx) else cell u i j
  let b : ℕ → ℕ → ℝ := fun i j =>
    if i = 0 then a 1 j - p.fL * p.dx else a i j
  let c : ℕ → ℕ → ℝ := fun i j =>
    if i = nx - 1 then b (nx - 2) j + p.fR * p.dx else b i j
  if j = ny - 1 then c i (ny - 2) + p.fT * p.dy else c i j

/-- A small parameter record used for concrete instances below:
`Lx = 2`, `Ly = 1`, `fL = 0`, `fR = 1`, `fT = 0`, unit steps and times. -/
noncomputable def pEx : HeatEquationParams :=
  { Lx := 2, Ly := 1, fL := 0, fR := 1, fT := 0, alpha := 1, dt := 1,
    dx := 1, dy := 1, totalTime := 1, gridResolution := 0 }

/-- A 2 × 2 zero grid. -/
def uEx2 : Grid := [[0, 0], [0, 0]]

/-- A 2 × 3 zero grid. -/
def uEx23 : Grid := [[0, 0, 0], [0, 0, 0]]

/-- A 3 × 3 zero grid. -/
def uEx33 : Grid := [[0, 0, 0], [0, 0, 0], [0, 0, 0]]

/-- The parameter record of the stability example with `dt = 0.02`. -/
noncomputable def warnParams : HeatEquationParams := { initialParams with dt := 0.02 }


/-! ### Indexing kit -/

theorem getD_of_lt {α : Type} (l : List α) (i : ℕ) (d : α) (h : i < l.length) :
    l.getD i d = l[i] := by
  simp [List.getD_eq_getElem?_getD, List.getElem?_eq_getElem h]

theorem getD_set_ne {α : Type} (l : List α) (i j : ℕ) (a d : α) (h : i ≠ j) :
    (l.set i a).getD j d = l.getD j d := by
  by_cases hj : j < l.length
  · rw [getD_of_lt _ _ _ (by simpa using hj), getD_of_lt _ _ _ hj,
      List.getElem_set_ne h]
  · rw [List.getD_eq_getElem?_getD, List.getD_eq_getElem?_getD,
      List.getElem?_eq_none (by simpa using Nat.le_of_not_lt hj),
      List.getElem?_eq_none (Nat.le_of_not_lt hj)]

theorem cell_eq {u : Grid} {i : ℕ} (j : ℕ) (hi : i < u.length) :
    cell u i j = (u[i]).getD j 0 := by
  unfold cell
  rw [getD_of_lt _ _ _ hi]

theorem rect_row_length {u : Grid} {nx ny : ℕ} (h : Rect u nx ny) {i : ℕ}
    (hi : i < u.length) : (u[i]).length = ny :=
  h.2 _ (List.getElem_mem hi)

theorem grid_ext {u v : Grid} {nx ny : ℕ} (hu : Rect u nx ny) (hv : Rect v nx ny)
    (h : ∀ i < nx, ∀ j < ny, cell u i j = cell v i j) : u = v := by
  apply List.ext_getElem (by rw [hu.1, hv.1])
  intro i hiu hiv
  apply List.ext_getElem (by rw [rect_row_length hu hiu, rect_row_length hv hiv])
  intro j hju hjv
  have hcell := h i (by rw [← hu.1]; exact hiu) j
    (by rw [← rect_row_length hu hiu]; exact hju)
  rw [cell_eq j hiu, cell_eq j hiv] at hcell
  rw [getD_of_lt _ _ _ hju, getD_of_lt _ _ _ hjv] at hcell
  exact hcell

/-! ### Shape preservation -/

theorem rect_bcBottom {p : HeatEquationParams} {u : Grid} {nx ny : ℕ}
    (h : Rect u nx ny) : Rect (bcBottom p u) nx ny := by
  refine ⟨by simp [bcBottom, h.1], ?_⟩
  intro r hr
  rw [bcBottom, List.mem_mapIdx] at hr
  obtain ⟨i, hi, rfl⟩ := hr
  simpa using rect_row_length h hi

theorem rect_bcLeft {p : HeatEquationParams} {u : Grid} {nx ny : ℕ}
    (h : Rect u nx ny) : Rect (bcLeft p ny u) nx ny := by
  refine ⟨by simp [bcLeft, h.1], ?_⟩
  intro r hr
  rw [bcLeft] at hr
  rcases List.mem_or_eq_of_mem_set hr with hmem | rfl
  · exact h.2 _ hmem
  · simp

theorem rect_bcRight {p : HeatEquationParams} {u : Grid} {nx ny : ℕ}
    (h : Rect u nx ny) : Rect (bcRight p ny u) nx ny := by
  refine ⟨by simp [bcRight, h.1], ?_⟩
  intro r hr
  rw [bcRight] at hr
  rcases List.mem_or_eq_of_mem_set hr with hmem | rfl
  · exact h.2 _ hmem
  · simp

theorem rect_bcTop {p : HeatEquationParams} {u : Grid} {nx ny : ℕ}
    (h : Rect u nx ny) : Rect (bcTop p ny u) nx ny := by
  refine ⟨by simp [bcTop, h.1], ?_⟩
  intro r hr
  rw [bcTop, List.mem_map] at hr
  obtain ⟨row, hrow, rfl⟩ := hr
  simpa using h.2 _ hrow

theorem ny_entry {u : Grid} {nx ny : ℕ} (h : Rect u nx ny) (hnx : 0 < nx) :
    (u.getD 0 []).length = ny := by
  rw [getD_of_lt _ _ _ (by rw [h.1]; exact hnx)]
  exact rect_row_length h (by rw [h.1]; exact hnx)

theorem applyBC_eq {p : HeatEquationParams} {u : Grid} {nx ny : ℕ}
    (h : Rect u nx ny) (hnx : 0 < nx) :
    applyBoundaryConditions p u =
      bcTop p ny (bcRight p ny (bcLeft p ny (bcBottom p u))) := by
  rw [applyBoundaryConditions, ny_entry h hnx]

theorem rect_applyBC {p : HeatEquationParams} {u : Grid} {nx ny : ℕ}
    (h : Rect u nx ny) (hnx : 0 < nx) :
    Rect (applyBoundaryConditions p u) nx ny := by
  rw [applyBC_eq h hnx]
  exact rect_bcTop (rect_bcRight (rect_bcLeft (rect_bcBottom h)))

theorem rect_solveHeat {p : HeatEquationParams} {u : Grid} {nx ny : ℕ}
    (h : Rect u nx ny) : Rect (solveHeatEquation p u) nx ny := by
  refine ⟨by simp [solveHeatEquation, h.1], ?_⟩
  intro r hr
  rw [solveHeatEquation, List.mem_mapIdx] at hr
  obtain ⟨i, hi, rfl⟩ := hr
  simpa using rect_row_length h hi

/-! ### Cell-level description of each boundary loop -/

theorem cell_bcBottom {p : HeatEquationParams} {u : Grid} {nx ny i j : ℕ}
    (h : Rect u nx ny) (hi : i < nx) (hj : j < ny) :
    cell (bcBottom p u) i j =
      if j = 0 then Real.sin (Real.pi * ((i : ℝ) * p.dx) / p.Lx)
      else cell u i j := by
  have hiu : i < u.length := by rw [h.1]; exact hi
  have hib : i < (bcBottom p u).length := by simp [bcBottom, h.1]; exact hi
  rw [cell_eq j hib]
  rw [show (bcBottom p u)[i] =
      (u[i]).set 0 (Real.sin (Real.pi * ((i : ℝ) * p.dx) / p.Lx)) by
    simp [bcBottom]]
  by_cases h0 : j = 0
  · subst h0
    have hrow : 0 < (u[i]).length := by
      rw [rect_row_length h hiu]; omega
    rw [getD_of_lt _ _ _ (by simpa using hrow), List.getElem_set_self]
    simp
  · rw [getD_set_ne _ _ _ _ _ (fun hc => h0 hc.symm), if_neg h0, cell_eq j hiu]

theorem cell_set_row_ne (u : Grid) (r : List ℝ) (k i j : ℕ) (h : k ≠ i) :
    cell (u.set k r) i j = cell u i j := by
  unfold cell
  rw [getD_set_ne _ _ _ _ _ h]

theorem cell_to_getElem {u : Grid} {i j : ℕ} (hi : i < u.length)
    (hj : j < (u[i]).length) : cell u i j = (u[i])[j] := by
  rw [cell_eq j hi, getD_of_lt _ _ _ hj]

theorem cell_bcLeft {p : HeatEquationParams} {u : Grid} {nx ny i j : ℕ}
    (h : Rect u nx ny) (hnx : 0 < nx) (hi : i < nx) (hj : j < ny) :
    cell (bcLeft p ny u) i j =
      if i = 0 then cell u 1 j - p.fL * p.dx else cell u i j := by
  by_cases h0 : i = 0
  · subst h0
    have hu0 : 0 < u.length := by rw [h.1]; exact hnx
    have hlb : 0 < (bcLeft p ny u).length := by simpa [bcLeft] using hu0
    have key : (bcLeft p ny u)[0] =
        (List.range ny).map fun j => cell u 1 j - p.fL * p.dx := by
      simp only [bcLeft]
      rw [List.getElem_set_self]
    rw [cell_eq j hlb, key, getD_of_lt _ _ _ (by simpa using hj),
      List.getElem_map, List.getElem_range, if_pos rfl]
  · rw [if_neg h0]
    unfold bcLeft
    exact cell_set_row_ne _ _ _ _ _ (fun hc => h0 hc.symm)

theorem cell_bcRight {p : HeatEquationParams} {u : Grid} {nx ny i j : ℕ}
    (h : Rect u nx ny) (hi : i < nx) (hj : j < ny) :
    cell (bcRight p ny u) i j =
      if i = nx - 1 then cell u (nx - 2) j + p.fR * p.dx else cell u i j := by
  by_cases hlast : i = nx - 1
  · subst hlast
    have hu0 : nx - 1 < u.length := by rw [h.1]; omega
    have hlb : nx - 1 < (bcRight p ny u).length := by simpa [bcRight] using hu0
    have key : (bcRight p ny u)[nx - 1] =
        (List.range ny).map fun j => cell u (nx - 2) j + p.fR * p.dx := by
      simp only [bcRight, h.1]
      rw [List.getElem_set_self]
    rw [cell_eq j hlb, key, getD_of_lt _ _ _ (by simpa using hj),
      List.getElem_map, List.getElem_range, if_pos rfl]
  · rw [if_neg hlast]
    unfold bcRight
    rw [h.1]
    exact cell_set_row_ne _ _ _ _ _ (fun hc => hlast hc.symm)

theorem cell_solveHeat {p : HeatEquationParams} {u : Grid} {nx ny i j : ℕ}
    (h : Rect u nx ny) (hi : i < nx) (hj : j < ny) :
    cell (solveHeatEquation p u) i j =
      if 1 ≤ i ∧ i < nx - 1 ∧ 1 ≤ j ∧ j < ny - 1 then
        cell u i j
          + p.alpha * p.dt / (p.dx * p.dx) *
              (cell u (i+1) j - 2 * cell u i j + cell u (i-1) j)
          + p.alpha * p.dt / (p.dy * p.dy) *
              (cell u i (j+1) - 2 * cell u i j + cell u i (j-1))
      else cell u i j := by
  have hiu : i < u.length := by rw [h.1]; exact hi
  have hju : j < (u[i]).length := by rw [rect_row_length h hiu]; exact hj
  have hib : i < (solveHeatEquation p u).length := by
    simp [solveHeatEquation, h.1]; exact hi
  have hnx0 : 0 < nx := by omega
  have key : (solveHeatEquation p u)[i] =
      (u[i]).mapIdx fun j x =>
        if 1 ≤ i ∧ i < nx - 1 ∧ 1 ≤ j ∧ j < ny - 1 then
          x + p.alpha * p.dt / (p.dx * p.dx) *
                (cell u (i+1) j - 2 * x + cell u (i-1) j)
            + p.alpha * p.dt / (p.dy * p.dy) *
                (cell u i (j+1) - 2 * x + cell u i (j-1))
        else x := by
    simp only [solveHeatEquation]
    rw [List.getElem_mapIdx]
    simp only [h.1, ny_entry h hnx0]
  rw [cell_eq j hib, key, getD_of_lt _ _ _ (by simpa using hju),
    List.getElem_mapIdx, cell_to_getElem hiu hju]

theorem cell_bcTop {p : HeatEquationParams} {u : Grid} {nx ny i j : ℕ}
    (h : Rect u nx ny) (hi : i < nx) (hj : j < ny) :
    cell (bcTop p ny u) i j =
      if j = ny - 1 then cell u i (ny - 2) + p.fT * p.dy else cell u i j := by
  have hiu : i < u.length := by rw [h.1]; exact hi
  have hib : i < (bcTop p ny u).length := by simp [bcTop, h.1]; exact hi
  rw [cell_eq j hib]
  rw [show (bcTop p ny u)[i] =
      (u[i]).set (ny - 1) ((u[i]).getD (ny - 2) 0 + p.fT * p.dy) by
    simp [bcTop]]
  by_cases hl : j = ny - 1
  · subst hl
    have hrow : ny - 1 < (u[i]).length := by
      rw [rect_row_length h hiu]; omega
    rw [getD_of_lt _ _ _ (by simpa using hrow), List.getElem_set_self]
    rw [if_pos rfl, cell_eq (ny - 2) hiu]
  · rw [getD_set_ne _ _ _ _ _ (fun hc => hl hc.symm), if_neg hl, cell_eq j hiu]

theorem cell_applyBC {p : HeatEquationParams} {u : Grid} {nx ny i j : ℕ}
    (h : Rect u nx ny) (hnx : 2 ≤ nx) (hny : 2 ≤ ny)
    (hi : i < nx) (hj : j < ny) :
    cell (applyBoundaryConditions p u) i j = bcExpected p u nx ny i j := by
  have hnx0 : 0 < nx := by omega
  have hA : Rect (bcBottom p u) nx ny := rect_bcBottom h
  have hB : Rect (bcLeft p ny (bcBottom p u)) nx ny := rect_bcLeft hA
  have hC : Rect (bcRight p ny (bcLeft p ny (bcBottom p u))) nx ny :=
    rect_bcRight hB
  have hj2 : ny - 2 < ny := by omega
  have h1x : (1 : ℕ) < nx := by omega
  have hx2 : nx - 2 < nx := by omega
  rw [applyBC_eq h hnx0]
  rw [cell_bcTop hC hi hj]
  simp only [cell_bcRight hB hi hj2, cell_bcRight hB hi hj]
  simp only [cell_bcLeft hA hnx0 hx2 hj2, cell_bcLeft hA hnx0 hx2 hj,
    cell_bcLeft hA hnx0 hi hj2, cell_bcLeft hA hnx0 hi hj]
  simp only [cell_bcBottom h h1x hj2, cell_bcBottom h h1x hj,
    cell_bcBottom h hx2 hj2, cell_bcBottom h hx2 hj,
    cell_bcBottom h hi hj2, cell_bcBottom h hi hj]
  simp only [bcExpected]

/-! ### Concrete-grid facts -/

theorem rect_uEx2 : Rect uEx2 2 2 := by
  refine ⟨rfl, ?_⟩
  intro r hr
  simp only [uEx2, List.mem_cons, List.not_mem_nil, or_false] at hr
  rcases hr with rfl | rfl <;> rfl

theorem rect_uEx23 : Rect uEx23 2 3 := by
  refine ⟨rfl, ?_⟩
  intro r hr
  simp only [uEx23, List.mem_cons, List.not_mem_nil, or_false] at hr
  rcases hr with rfl | rfl <;> rfl

theorem rect_uEx33 : Rect uEx33 3 3 := by
  refine ⟨rfl, ?_⟩
  intro r hr
  simp only [uEx33, List.mem_cons, List.not_mem_nil, or_false] at hr
  rcases hr with rfl | rfl | rfl <;> rfl

/-! ### The initial grid -/

theorem rect_initializeGrid (p : HeatEquationParams) :
    Rect (initializeGrid p)
      ((⌊p.Lx / p.dx⌋).toNat + 1) ((⌊p.Ly / p.dy⌋).toNat + 1) := by
  refine ⟨by simp only [initializeGrid, List.length_map, List.length_range], ?_⟩
  intro r hr
  simp only [initializeGrid, List.mem_map, List.mem_range] at hr
  obtain ⟨i, hi, rfl⟩ := hr
  simp only [List.length_map, List.length_range]

theorem cell_initializeGrid (p : HeatEquationParams) {i j : ℕ}
    (hi : i < (⌊p.Lx / p.dx⌋).toNat + 1) (hj : j < (⌊p.Ly / p.dy⌋).toNat + 1) :
    cell (initializeGrid p) i j =
      Real.cos (Real.pi * ((j : ℝ) * p.dy) / (2 * p.Ly)) *
        Real.sin (Real.pi * ((i : ℝ) * p.dx) / p.Lx) := by
  have hlen : i < (initializeGrid p).length := by
    simp only [initializeGrid, List.length_map, List.length_range]; exact hi
  rw [cell_eq j hlen]
  rw [show (initializeGrid p)[i] =
      (List.range ((⌊p.Ly / p.dy⌋).toNat + 1)).map fun (j : ℕ) =>
        Real.cos (Real.pi * ((j : ℝ) * p.dy) / (2 * p.Ly)) *
          Real.sin (Real.pi * ((i : ℝ) * p.dx) / p.Lx) by
    simp only [initializeGrid, List.getElem_map, List.getElem_range]]
  rw [getD_of_lt _ _ _ (by simpa using hj), List.getElem_map, List.getElem_range]

/-! ### Claims -/

/-- C1: for an `nx × ny` input field (`nx, ny ≥ 2`) and positive
`alpha, dt, dx, dy`, the stencil step `solveHeatEquation` returns a field
of identical shape whose boundary cells equal the corresponding input
cells and whose interior cells receive the explicit update
`u[i][j] + rx·(u[i+1][j] − 2u[i][j] + u[i-1][j]) + ry·(u[i][j+1] −
2u[i][j] + u[i][j-1])` with `rx = alpha·dt/dx²`, `ry = alpha·dt/dy²`.
The input field is left unmodified: the embedding is a pure function of
`u`, mirroring the source, which writes only to the fresh copy `newU`. -/
theorem solveHeat_stencil_spec (p : HeatEquationParams) (u : Grid) (nx ny : ℕ)
    (hrect : Rect u nx ny) (hnx : 2 ≤ nx) (hny : 2 ≤ ny)
    (halpha : 0 < p.alpha) (hdt : 0 < p.dt) (hdx : 0 < p.dx) (hdy : 0 < p.dy) :
    Rect (solveHeatEquation p u) nx ny ∧
    (∀ i j, i < nx → j < ny → (i = 0 ∨ i = nx - 1 ∨ j = 0 ∨ j = ny - 1) →
      cell (solveHeatEquation p u) i j = cell u i j) ∧
    (∀ i j, 1 ≤ i → i ≤ nx - 2 → 1 ≤ j → j ≤ ny - 2 →
      cell (solveHeatEquation p u) i j =
        cell u i j
          + p.alpha * p.dt / (p.dx * p.dx) *
              (cell u (i+1) j - 2 * cell u i j + cell u (i-1) j)
          + p.alpha * p.dt / (p.dy * p.dy) *
              (cell u i (j+1) - 2 * cell u i j + cell u i (j-1))) := by
  refine ⟨rect_solveHeat hrect, ?_, ?_⟩
  · intro i j hi hj hbd
    rw [cell_solveHeat hrect hi hj, if_neg]
    rintro ⟨h1, h2, h3, h4⟩
    omega
  · intro i j h1 h2 h3 h4
    have hi : i < nx := by omega
    have hj : j < ny := by omega
    rw [cell_solveHeat hrect hi hj, if_pos]
    exact ⟨h1, by omega, h3, by omega⟩

/-- Witness for C1 at the 3 × 3 zero grid with the default parameters:
the hypotheses hold and the interior cell `(1,1)` receives the stencil
update. -/
theorem solveHeat_stencil_spec_witness :
    Rect uEx33 3 3 ∧ (0 : ℝ) < initialParams.alpha ∧
    cell (solveHeatEquation initialParams uEx33) 1 1 =
      cell uEx33 1 1
        + initialParams.alpha * initialParams.dt /
            (initialParams.dx * initialParams.dx) *
            (cell uEx33 2 1 - 2 * cell uEx33 1 1 + cell uEx33 0 1)
        + initialParams.alpha * initialParams.dt /
            (initialParams.dy * initialParams.dy) *
            (cell uEx33 1 2 - 2 * cell uEx33 1 1 + cell uEx33 1 0) :=
  ⟨rect_uEx33, by norm_num [initialParams],
    (solveHeat_stencil_spec initialParams uEx33 3 3 rect_uEx33
      (by norm_num) (by norm_num) (by norm_num [initialParams])
      (by norm_num [initialParams]) (by norm_num [initialParams])
      (by norm_num [initialParams])).2.2 1 1
      (by norm_num) (by norm_num) (by norm_num) (by norm_num)⟩

/-- C2: the stability warning of `solveHeatEquation` fires exactly when
`rx + ry > 0.5`, equivalently `alpha·dt·(1/dx² + 1/dy²) > 0.5`; with the
default `alpha = 0.1, dt = 0.001, dx = dy = 0.05` it does not fire, with
`dt = 0.02` it fires; and the warning is non-fatal: even for the warning
parameters the interior update is still computed (in the source the
`console.warn` has no effect on `newU`, and the returned field does not
depend on the warning at all). -/
theorem stability_warning_spec :
    (∀ p : HeatEquationParams,
      stabilityViolated p ↔
        p.alpha * p.dt * (1 / p.dx ^ 2 + 1 / p.dy ^ 2) > 0.5) ∧
    ¬ stabilityViolated initialParams ∧
    stabilityViolated warnParams ∧
    (∀ (u : Grid) (nx ny i j : ℕ), Rect u nx ny →
      1 ≤ i → i < nx - 1 → 1 ≤ j → j < ny - 1 →
      cell (solveHeatEquation warnParams u) i j =
        cell u i j
          + warnParams.alpha * warnParams.dt /
              (warnParams.dx * warnParams.dx) *
              (cell u (i+1) j - 2 * cell u i j + cell u (i-1) j)
          + warnParams.alpha * warnParams.dt /
              (warnParams.dy * warnParams.dy) *
              (cell u i (j+1) - 2 * cell u i j + cell u i (j-1))) := by
  refine ⟨?_, ?_, ?_, ?_⟩
  · intro p
    unfold stabilityViolated
    rw [show p.alpha * p.dt / (p.dx * p.dx) + p.alpha * p.dt / (p.dy * p.dy) =
        p.alpha * p.dt * (1 / p.dx ^ 2 + 1 / p.dy ^ 2) by ring]
  · norm_num [stabilityViolated, initialParams]
  · norm_num [stabilityViolated, warnParams, initialParams]
  · intro u nx ny i j hrect h1 h2 h3 h4
    rw [cell_solveHeat hrect (by omega) (by omega), if_pos]
    exact ⟨h1, h2, h3, h4⟩

/-- Witness for C2: both worked examples of the claim, read off from the
theorem itself. -/
theorem stability_warning_spec_witness :
    ¬ stabilityViolated initialParams ∧ stabilityViolated warnParams :=
  ⟨stability_warning_spec.2.1, stability_warning_spec.2.2.1⟩

/-- C3 (amended): after `applyBoundaryConditions`, the bottom row equals
`sin(π·(i·dx)/Lx)` at every interior column `1 ≤ i ≤ nx-2`.  The claim's
"for all `i` from 0 to nx-1" fails at the two corners, which the later
left and right Neumann loops overwrite (counterexample below). -/
theorem applyBC_bottom_row (p : HeatEquationParams) (u : Grid) (nx ny : ℕ)
    (hrect : Rect u nx ny) (hnx : 2 ≤ nx) (hny : 2 ≤ ny) :
    ∀ i, 1 ≤ i → i ≤ nx - 2 →
      cell (applyBoundaryConditions p u) i 0 =
        Real.sin (Real.pi * ((i : ℝ) * p.dx) / p.Lx) := by
  intro i h1 h2
  have hi : i < nx := by omega
  rw [cell_applyBC hrect hnx hny hi (by omega)]
  simp only [bcExpected]
  rw [if_neg (show ¬ (0 = ny - 1) by omega),
    if_neg (show ¬ i = nx - 1 by omega),
    if_neg (show ¬ i = 0 by omega)]
  simp

/-- Witness for C3 (amended) on the 3 × 3 zero grid with `pEx`
(`Lx = 2`, `dx = 1`): the interior bottom cell `(1,0)` holds
`sin(π·1/2)`. -/
theorem applyBC_bottom_row_witness :
    Rect uEx33 3 3 ∧
    cell (applyBoundaryConditions pEx uEx33) 1 0 =
      Real.sin (Real.pi * ((1 : ℕ) * pEx.dx) / pEx.Lx) :=
  ⟨rect_uEx33,
    applyBC_bottom_row pEx uEx33 3 3 rect_uEx33 (by norm_num) (by norm_num)
      1 (by norm_num) (by norm_num)⟩

/-- C3 counterexample: with `Lx = 2`, `dx = 1`, `fL = 0` on the 2 × 2
zero grid, the bottom-left corner after `applyBoundaryConditions` holds
`u[1][0] − fL·dx = sin(π·1/2) = 1`, not the claimed
`sin(π·0/Lx) = 0`: the left Neumann loop runs after the bottom loop and
overwrites column 0 all the way down. -/
theorem applyBC_bottom_corner_cex :
    cell (applyBoundaryConditions pEx uEx2) 0 0 ≠
      Real.sin (Real.pi * ((0 : ℕ) * pEx.dx) / pEx.Lx) := by
  rw [cell_applyBC rect_uEx2 (by norm_num) (by norm_num) (by norm_num)
    (by norm_num)]
  simp only [bcExpected, pEx]
  norm_num

/-- C4: for positive `Lx, Ly, dx, dy` with `dx ≤ Lx` and `dy ≤ Ly`, the
initial field has shape `(floor(Lx/dx)+1) × (floor(Ly/dy)+1)` and, before
any boundary application, every cell holds
`cos(π·(j·dy)/(2·Ly)) · sin(π·(i·dx)/Lx)`; in particular the origin cell
is `0`. -/
theorem initializeGrid_spec (p : HeatEquationParams)
    (hLx : 0 < p.Lx) (hLy : 0 < p.Ly) (hdx : 0 < p.dx) (hdy : 0 < p.dy)
    (hdxLx : p.dx ≤ p.Lx) (hdyLy : p.dy ≤ p.Ly) :
    Rect (initializeGrid p)
      ((⌊p.Lx / p.dx⌋).toNat + 1) ((⌊p.Ly / p.dy⌋).toNat + 1) ∧
    (∀ i j, i < (⌊p.Lx / p.dx⌋).toNat + 1 → j < (⌊p.Ly / p.dy⌋).toNat + 1 →
      cell (initializeGrid p) i j =
        Real.cos (Real.pi * ((j : ℝ) * p.dy) / (2 * p.Ly)) *
          Real.sin (Real.pi * ((i : ℝ) * p.dx) / p.Lx)) ∧
    cell (initializeGrid p) 0 0 = 0 := by
  refine ⟨rect_initializeGrid p, fun i j hi hj => cell_initializeGrid p hi hj, ?_⟩
  rw [cell_initializeGrid p (by omega) (by omega)]
  simp

/-- Witness for C4 at the default parameters (`Lx = 2, dx = 0.05`,
`Ly = 1.5, dy = 0.05`): shape facts and the zero origin cell. -/
theorem initializeGrid_spec_witness :
    Rect (initializeGrid initialParams)
      ((⌊initialParams.Lx / initialParams.dx⌋).toNat + 1)
      ((⌊initialParams.Ly / initialParams.dy⌋).toNat + 1) ∧
    cell (initializeGrid initialParams) 0 0 = 0 := by
  have h := initializeGrid_spec initialParams (by norm_num [initialParams])
    (by norm_num [initialParams]) (by norm_num [initialParams])
    (by norm_num [initialParams]) (by norm_num [initialParams])
    (by norm_num [initialParams])
  exact ⟨h.1, h.2.2⟩

set_option maxHeartbeats 1600000 in
/-- C6 (amended): for `nx ≥ 3` (and `ny ≥ 2`), applying
`applyBoundaryConditions` twice with identical parameters equals applying
it once.  The claim's `nx ≥ 2` is too weak: at `nx = 2` the right loop
reads column `0`, which the left loop just rewrote, and a second
application shifts interior-row values of column 0 by `(fR − fL)·dx`
(counterexample below). -/
theorem applyBC_idempotent (p : HeatEquationParams) (u : Grid) (nx ny : ℕ)
    (hrect : Rect u nx ny) (hnx : 3 ≤ nx) (hny : 2 ≤ ny) :
    applyBoundaryConditions p (applyBoundaryConditions p u) =
      applyBoundaryConditions p u := by
  have h2 : 2 ≤ nx := by omega
  have hnx0 : 0 < nx := by omega
  have hv : Rect (applyBoundaryConditions p u) nx ny := rect_applyBC hrect hnx0
  have hw : Rect (applyBoundaryConditions p (applyBoundaryConditions p u)) nx ny :=
    rect_applyBC hv hnx0
  apply grid_ext hw hv
  intro i hi j hj
  rw [cell_applyBC hv h2 hny hi hj, cell_applyBC hrect h2 hny hi hj]
  have hcv : ∀ a b, a < nx → b < ny →
      cell (applyBoundaryConditions p u) a b = bcExpected p u nx ny a b :=
    fun a b ha hb => cell_applyBC hrect h2 hny ha hb
  simp only [bcExpected]
  rw [hcv i (ny - 2) hi (by omega), hcv i j hi hj,
    hcv 1 (ny - 2) (by omega) (by omega), hcv 1 j (by omega) hj,
    hcv (nx - 2) (ny - 2) (by omega) (by omega), hcv (nx - 2) j (by omega) hj]
  simp only [bcExpected]
  split_ifs <;> first | contradiction | (exfalso; omega) | ring | rfl

/-- Witness for C6 (amended) on the 3 × 3 zero grid with `pEx`. -/
theorem applyBC_idempotent_witness :
    Rect uEx33 3 3 ∧
    applyBoundaryConditions pEx (applyBoundaryConditions pEx uEx33) =
      applyBoundaryConditions pEx uEx33 :=
  ⟨rect_uEx33,
    applyBC_idempotent pEx uEx33 3 3 rect_uEx33 (by norm_num) (by norm_num)⟩

/-- C6 counterexample: on the 2 × 3 zero grid with `fL = 0`, `fR = 1`,
`dx = 1` (parameters `pEx`), a second application of
`applyBoundaryConditions` changes cell `(0,1)` from `0` to `1`: with
`nx = 2` the right loop rewrites column `1`, from which the left loop
recomputes column `0` on the next application. -/
theorem applyBC_not_idempotent_cex :
    applyBoundaryConditions pEx (applyBoundaryConditions pEx uEx23) ≠
      applyBoundaryConditions pEx uEx23 := by
  intro heq
  have hv : Rect (applyBoundaryConditions pEx uEx23) 2 3 :=
    rect_applyBC rect_uEx23 (by norm_num)
  have h1 : cell (applyBoundaryConditions pEx
        (applyBoundaryConditions pEx uEx23)) 0 1 =
      cell (applyBoundaryConditions pEx uEx23) 0 1 := by rw [heq]
  rw [cell_applyBC hv (by norm_num) (by norm_num) (by norm_num)
    (by norm_num)] at h1
  rw [cell_applyBC rect_uEx23 (by norm_num) (by norm_num) (by norm_num)
    (by norm_num)] at h1
  simp only [bcExpected] at h1
  rw [cell_applyBC rect_uEx23 (by norm_num) (by norm_num) (by norm_num)
    (by norm_num)] at h1
  simp only [bcExpected] at h1
  norm_num [cell, uEx23, pEx] at h1

/-- C7: after `applyBoundaryConditions` on an `nx × ny` grid with
`nx ≥ 3`, `ny ≥ 2`, the final field satisfies the two Neumann side
relations `u[0][j] = u[1][j] − fL·dx` and
`u[nx-1][j] = u[nx-2][j] + fR·dx` for every `j < ny` — including
`j = ny-1`, because the top loop adds the same `fT·dy` offset to every
column. -/
theorem applyBC_neumann_sides (p : HeatEquationParams) (u : Grid) (nx ny : ℕ)
    (hrect : Rect u nx ny) (hnx : 3 ≤ nx) (hny : 2 ≤ ny) :
    ∀ j < ny,
      cell (applyBoundaryConditions p u) 0 j =
        cell (applyBoundaryConditions p u) 1 j - p.fL * p.dx ∧
      cell (applyBoundaryConditions p u) (nx - 1) j =
        cell (applyBoundaryConditions p u) (nx - 2) j + p.fR * p.dx := by
  intro j hj
  have h2 : 2 ≤ nx := by omega
  rw [cell_applyBC hrect h2 hny (show 0 < nx by omega) hj,
    cell_applyBC hrect h2 hny (show 1 < nx by omega) hj,
    cell_applyBC hrect h2 hny (show nx - 1 < nx by omega) hj,
    cell_applyBC hrect h2 hny (show nx - 2 < nx by omega) hj]
  constructor <;>
    · simp only [bcExpected]
      split_ifs <;> first | contradiction | (exfalso; omega) | ring | rfl

/-- Witness for C7 on the 3 × 3 zero grid with `pEx`, at column
`j = 1`. -/
theorem applyBC_neumann_sides_witness :
    Rect uEx33 3 3 ∧
    (cell (applyBoundaryConditions pEx uEx33) 0 1 =
        cell (applyBoundaryConditions pEx uEx33) 1 1 - pEx.fL * pEx.dx ∧
      cell (applyBoundaryConditions pEx uEx33) 2 1 =
        cell (applyBoundaryConditions pEx uEx33) 1 1 + pEx.fR * pEx.dx) :=
  ⟨rect_uEx33,
    applyBC_neumann_sides pEx uEx33 3 3 rect_uEx33 (by norm_num) (by norm_num)
      1 (by norm_num)⟩

/-! ### The animation step -/

theorem animate_halted (p : HeatEquationParams) (s : SimulationState)
    (h : s.isRunning = false) : animate p s = s := by
  simp [animate, h]

theorem animate_halted_iter (p : HeatEquationParams) (s : SimulationState)
    (h : s.isRunning = false) (m : ℕ) : (animate p)^[m] s = s :=
  Function.iterate_fixed (animate_halted p s h) m

theorem animate_running_continue (p : HeatEquationParams) (s : SimulationState)
    (hrun : s.isRunning = true) (hlt : s.time + p.dt < p.totalTime) :
    animate p s =
      { s with u := applyBoundaryConditions p (solveHeatEquation p s.u),
               time := s.time + p.dt } := by
  simp only [animate]
  rw [if_neg (by simp [hrun]), if_neg (not_le.mpr hlt)]

theorem animate_running_terminal (p : HeatEquationParams) (s : SimulationState)
    (hrun : s.isRunning = true) (hge : p.totalTime ≤ s.time + p.dt) :
    animate p s =
      { s with u := applyBoundaryConditions p (solveHeatEquation p s.u),
               time := 0, isRunning := false } := by
  simp only [animate]
  rw [if_neg (by simp [hrun]), if_pos hge]

theorem animate_progress (p : HeatEquationParams) (u0 : Grid) (a : Option ℕ)
    (hdt : 0 < p.dt) :
    ∀ k : ℕ, ((k : ℝ) * p.dt < p.totalTime) →
      ((animate p)^[k] ⟨u0, 0, true, a⟩).time = (k : ℝ) * p.dt ∧
      ((animate p)^[k] ⟨u0, 0, true, a⟩).isRunning = true := by
  intro k
  induction k with
  | zero => intro h; simp
  | succ n ih =>
    intro hlt
    have hcast : ((n + 1 : ℕ) : ℝ) = (n : ℝ) + 1 := by push_cast; ring
    have hn : (n : ℝ) * p.dt < p.totalTime := by
      rw [hcast] at hlt; nlinarith
    obtain ⟨ht, hr⟩ := ih hn
    have hcond : ((animate p)^[n] ⟨u0, 0, true, a⟩).time + p.dt < p.totalTime := by
      rw [ht]; rw [hcast] at hlt; linarith
    rw [Function.iterate_succ_apply', animate_running_continue p _ hr hcond]
    refine ⟨?_, hr⟩
    rw [hcast]
    simp only [ht]
    ring

/-- C8: starting from `time = 0`, `isRunning = true`, if `N` is the first
step count whose accumulated time `N·dt` reaches `totalTime` (that is,
`(N−1)·dt < totalTime ≤ N·dt`), then the `N`-th `animate` step resets
`time` to `0` and clears `isRunning`, and every later step leaves the
state unchanged.  The default-parameter run with
`N = 5000 = ceil(5.0/0.001)` is the witness below. -/
theorem animate_run_completion (p : HeatEquationParams) (u0 : Grid)
    (a : Option ℕ) (N : ℕ) (hdt : 0 < p.dt) (hN : 1 ≤ N)
    (hbefore : ((N : ℝ) - 1) * p.dt < p.totalTime)
    (hreach : p.totalTime ≤ (N : ℝ) * p.dt) :
    ∀ m, N ≤ m →
      (animate p)^[m] ⟨u0, 0, true, a⟩ = (animate p)^[N] ⟨u0, 0, true, a⟩ ∧
      ((animate p)^[N] ⟨u0, 0, true, a⟩).time = 0 ∧
      ((animate p)^[N] ⟨u0, 0, true, a⟩).isRunning = false := by
  have hcast : ((N - 1 : ℕ) : ℝ) = (N : ℝ) - 1 := by
    rw [Nat.cast_sub hN, Nat.cast_one]
  have hprev := animate_progress p u0 a hdt (N - 1) (by rw [hcast]; exact hbefore)
  obtain ⟨ht, hr⟩ := hprev
  have hterm : p.totalTime ≤
      ((animate p)^[N - 1] ⟨u0, 0, true, a⟩).time + p.dt := by
    rw [ht, hcast]
    have heq : ((N : ℝ) - 1) * p.dt + p.dt = (N : ℝ) * p.dt := by ring
    rw [heq]
    exact hreach
  have hNstate : ((animate p)^[N] ⟨u0, 0, true, a⟩).time = 0 ∧
      ((animate p)^[N] ⟨u0, 0, true, a⟩).isRunning = false := by
    rw [show N = (N - 1) + 1 by omega, Function.iterate_succ_apply',
      animate_running_terminal p _ hr hterm]
    exact ⟨rfl, rfl⟩
  intro m hm
  refine ⟨?_, hNstate⟩
  rw [show m = (m - N) + N by omega, Function.iterate_add_apply]
  exact animate_halted_iter p _ hNstate.2 (m - N)

/-- Witness for C8: the default run (`dt = 0.001`, `totalTime = 5.0`)
started on the boundary-patched initial grid halts after exactly 5000
steps with `time = 0` and `isRunning = false`. -/
theorem animate_run_completion_witness :
    ((animate initialParams)^[5000]
      ⟨applyBoundaryConditions initialParams (initializeGrid initialParams),
        0, true, none⟩).time = 0 ∧
    ((animate initialParams)^[5000]
      ⟨applyBoundaryConditions initialParams (initializeGrid initialParams),
        0, true, none⟩).isRunning = false :=
  (animate_run_completion initialParams
    (applyBoundaryConditions initialParams (initializeGrid initialParams))
    none 5000 (by norm_num [initialParams]) (by norm_num)
    (by norm_num [initialParams]) (by norm_num [initialParams])
    5000 le_rfl).2

/-- C9: on a terminating step (the running state whose incremented time
reaches `totalTime`), the stored field is still advanced: the new state
holds the freshly stepped, boundary-patched field — not the initial
field — while `time` is zeroed and `isRunning` cleared. -/
theorem animate_terminal_advances_field (p : HeatEquationParams)
    (s : SimulationState) (hrun : s.isRunning = true)
    (hreach : p.totalTime ≤ s.time + p.dt) :
    (animate p s).u = applyBoundaryConditions p (solveHeatEquation p s.u) ∧
    (animate p s).time = 0 ∧ (animate p s).isRunning = false := by
  rw [animate_running_terminal p s hrun hreach]
  exact ⟨rfl, rfl, rfl⟩

/-- Witness for C9: a terminal step from `time = 0` with `pEx`
(`dt = totalTime = 1`) on the 3 × 3 zero grid. -/
theorem animate_terminal_advances_field_witness :
    (animate pEx ⟨uEx33, 0, true, none⟩).u =
      applyBoundaryConditions pEx (solveHeatEquation pEx uEx33) ∧
    (animate pEx ⟨uEx33, 0, true, none⟩).time = 0 ∧
    (animate pEx ⟨uEx33, 0, true, none⟩).isRunning = false :=
  animate_terminal_advances_field pEx ⟨uEx33, 0, true, none⟩ rfl
    (by norm_num [pEx])

/-! ### The color mapper -/

theorem floor_channel_bounds {x : ℝ} (h0 : 0 ≤ x) (h255 : x ≤ 255) :
    0 ≤ ⌊x⌋ ∧ ⌊x⌋ ≤ 255 :=
  ⟨Int.floor_nonneg.mpr h0,
    le_trans (Int.floor_mono h255) (by norm_num)⟩

/-- C5 (code observation): `temperatureToColor` has no explicit branch
for `maxTemp = minTemp`; it performs the division
`(temp − minTemp)/(maxTemp − minTemp)` unconditionally.  At
`temp = minTemp = maxTemp` the IEEE result is `0/0 = NaN` (modelled
`none`), which is not the low-end color `rgb(0, 0, 255)` the claim
describes. -/
theorem tempColor_degenerate_not_blue :
    temperatureToColor 0 0 0 = none ∧
    temperatureToColor 0 0 0 ≠ some (0, 0, 255) := by
  constructor <;> simp [temperatureToColor, normalizedValue]

set_option maxHeartbeats 1600000 in
/-- C10: for `minTemp < maxTemp` every channel produced by
`temperatureToColor` is an integer in `[0, 255]`; `temp ≤ minTemp` gives
`rgb(0,0,255)` and `maxTemp ≤ temp` gives `rgb(255,0,0)`, because the
normalized value is clamped to `[0, 1]` before the gradient is
evaluated. -/
theorem tempColor_range (temp minTemp maxTemp : ℝ) (h : minTemp < maxTemp) :
    ∃ r g b : ℤ,
      temperatureToColor temp minTemp maxTemp = some (r, g, b) ∧
      0 ≤ r ∧ r ≤ 255 ∧ 0 ≤ g ∧ g ≤ 255 ∧ 0 ≤ b ∧ b ≤ 255 ∧
      (temp ≤ minTemp → (r, g, b) = (0, 0, 255)) ∧
      (maxTemp ≤ temp → (r, g, b) = (255, 0, 0)) := by
  have hne : ¬ (maxTemp = minTemp) := ne_of_gt h
  have hpos : 0 < maxTemp - minTemp := by linarith
  have hnv : normalizedValue temp minTemp maxTemp =
      some (max 0 (min 1 ((temp - minTemp) / (maxTemp - minTemp)))) := by
    simp [normalizedValue, hne]
  rw [temperatureToColor, hnv, Option.map_some']
  set n : ℝ := max 0 (min 1 ((temp - minTemp) / (maxTemp - minTemp))) with hn
  have hn0 : 0 ≤ n := le_max_left _ _
  have hn1 : n ≤ 1 := max_le (by norm_num) (min_le_left _ _)
  have hlow : temp ≤ minTemp → n = 0 := by
    intro hle
    have hq0 : (temp - minTemp) / (maxTemp - minTemp) ≤ 0 := by
      rw [div_nonpos_iff]
      right
      constructor <;> linarith
    rw [hn, min_eq_right (by linarith), max_eq_left hq0]
  have hhigh : maxTemp ≤ temp → n = 1 := by
    intro hge
    have hq1 : 1 ≤ (temp - minTemp) / (maxTemp - minTemp) :=
      (one_le_div hpos).mpr (by linarith)
    rw [hn, min_eq_left hq1, max_eq_right (by norm_num)]
  by_cases hcase : temp ≤ minTemp
  · have hn' : n = 0 := hlow hcase
    refine ⟨0, 0, 255, ?_, by norm_num, by norm_num, by norm_num, by norm_num,
      by norm_num, by norm_num, fun _ => rfl, fun hge => absurd hcase (by linarith)⟩
    rw [hn']
    norm_num
  · by_cases hcase2 : maxTemp ≤ temp
    · have hn' : n = 1 := hhigh hcase2
      refine ⟨255, 0, 0, ?_, by norm_num, by norm_num, by norm_num, by norm_num,
        by norm_num, by norm_num, fun hle => absurd hle hcase, fun _ => rfl⟩
      rw [hn']
      norm_num
    · by_cases h1 : n < 0.25
      · obtain ⟨hr0, hr1⟩ := floor_channel_bounds
          (show (0:ℝ) ≤ 0 * (1 - n * 4) + 0 * (n * 4) by nlinarith)
          (show (0:ℝ) * (1 - n * 4) + 0 * (n * 4) ≤ 255 by nlinarith)
        obtain ⟨hg0, hg1⟩ := floor_channel_bounds
          (show (0:ℝ) ≤ 0 * (1 - n * 4) + 255 * (n * 4) by nlinarith)
          (show (0:ℝ) * (1 - n * 4) + 255 * (n * 4) ≤ 255 by nlinarith)
        obtain ⟨hb0, hb1⟩ := floor_channel_bounds
          (show (0:ℝ) ≤ 255 * (1 - n * 4) + 255 * (n * 4) by nlinarith)
          (show (255:ℝ) * (1 - n * 4) + 255 * (n * 4) ≤ 255 by nlinarith)
        exact ⟨_, _, _, by rw [if_pos h1], hr0, hr1, hg0, hg1, hb0, hb1,
          fun hle => absurd hle hcase, fun hge => absurd hge hcase2⟩
      · by_cases h2 : n < 0.5
        · obtain ⟨hr0, hr1⟩ := floor_channel_bounds
            (show (0:ℝ) ≤ 0 * (1 - (n - 0.25) * 4) + 0 * ((n - 0.25) * 4) by
              nlinarith)
            (show (0:ℝ) * (1 - (n - 0.25) * 4) + 0 * ((n - 0.25) * 4) ≤ 255 by
              nlinarith)
          obtain ⟨hg0, hg1⟩ := floor_channel_bounds
            (show (0:ℝ) ≤ 255 * (1 - (n - 0.25) * 4) + 255 * ((n - 0.25) * 4) by
              nlinarith)
            (show (255:ℝ) * (1 - (n - 0.25) * 4) + 255 * ((n - 0.25) * 4) ≤ 255 by
              nlinarith)
          obtain ⟨hb0, hb1⟩ := floor_channel_bounds
            (show (0:ℝ) ≤ 255 * (1 - (n - 0.25) * 4) + 0 * ((n - 0.25) * 4) by
              nlinarith [not_lt.mp h1])
            (show (255:ℝ) * (1 - (n - 0.25) * 4) + 0 * ((n - 0.25) * 4) ≤ 255 by
              nlinarith [not_lt.mp h1])
          exact ⟨_, _, _, by rw [if_neg h1, if_pos h2], hr0, hr1, hg0, hg1,
            hb0, hb1, fun hle => absurd hle hcase, fun hge => absurd hge hcase2⟩
        · by_cases h3 : n < 0.75
          · obtain ⟨hr0, hr1⟩ := floor_channel_bounds
              (show (0:ℝ) ≤ 0 * (1 - (n - 0.5) * 4) + 255 * ((n - 0.5) * 4) by
                nlinarith [not_lt.mp h2])
              (show (0:ℝ) * (1 - (n - 0.5) * 4) + 255 * ((n - 0.5) * 4) ≤ 255 by
                nlinarith [not_lt.mp h2])
            obtain ⟨hg0, hg1⟩ := floor_channel_bounds
              (show (0:ℝ) ≤ 255 * (1 - (n - 0.5) * 4) + 255 * ((n - 0.5) * 4) by
                nlinarith)
              (show (255:ℝ) * (1 - (n - 0.5) * 4) + 255 * ((n - 0.5) * 4) ≤ 255 by
                nlinarith)
            obtain ⟨hb0, hb1⟩ := floor_channel_bounds
              (show (0:ℝ) ≤ 0 * (1 - (n - 0.5) * 4) + 0 * ((n - 0.5) * 4) by
                nlinarith)
              (show (0:ℝ) * (1 - (n - 0.5) * 4) + 0 * ((n - 0.5) * 4) ≤ 255 by
                nlinarith)
            exact ⟨_, _, _, by rw [if_neg h1, if_neg h2, if_pos h3], hr0, hr1,
              hg0, hg1, hb0, hb1, fun hle => absurd hle hcase,
              fun hge => absurd hge hcase2⟩
          · obtain ⟨hr0, hr1⟩ := floor_channel_bounds
              (show (0:ℝ) ≤ 255 * (1 - (n - 0.75) * 4) + 255 * ((n - 0.75) * 4) by
                nlinarith)
              (show (255:ℝ) * (1 - (n - 0.75) * 4) + 255 * ((n - 0.75) * 4) ≤ 255 by
                nlinarith)
            obtain ⟨hg0, hg1⟩ := floor_channel_bounds
              (show (0:ℝ) ≤ 255 * (1 - (n - 0.75) * 4) + 0 * ((n - 0.75) * 4) by
                nlinarith [not_lt.mp h3])
              (show (255:ℝ) * (1 - (n - 0.75) * 4) + 0 * ((n - 0.75) * 4) ≤ 255 by
                nlinarith [not_lt.mp h3])
            obtain ⟨hb0, hb1⟩ := floor_channel_bounds
              (show (0:ℝ) ≤ 0 * (1 - (n - 0.75) * 4) + 0 * ((n - 0.75) * 4) by
                nlinarith)
              (show (0:ℝ) * (1 - (n - 0.75) * 4) + 0 * ((n - 0.75) * 4) ≤ 255 by
                nlinarith)
            exact ⟨_, _, _, by rw [if_neg h1, if_neg h2, if_neg h3], hr0, hr1,
              hg0, hg1, hb0, hb1, fun hle => absurd hle hcase,
              fun hge => absurd hge hcase2⟩

/-- Witness for C10: with range `[0, 1]`, a temperature at the low end
maps to blue `rgb(0, 0, 255)`. -/
theorem tempColor_range_witness :
    temperatureToColor (-1) 0 1 = some (0, 0, 255) := by
  obtain ⟨r, g, b, heq, -, -, -, -, -, -, hlowc, -⟩ :=
    tempColor_range (-1) 0 1 (by norm_num)
  rw [heq, hlowc (by norm_num)]
